import Mathlib

/-!
Shallow embedding of the tag-service cache-consistency subsystem
(`src/features/tags/tags.service.ts`) and the collaborator contracts it
relies on (CacheService / VersionedKeyStore, TagRepo, cache-key naming,
CDN edge purge).  Functions present in the source are translated directly;
collaborators whose code is not in the repository snapshot are modelled
from the specification and marked as such in their doc comments.
-/

namespace Blog

/-- A tag row of the authoritative store: `(id, name)`. -/
structure Tag where
  id : Nat
  name : String
deriving DecidableEq, Repr

/-- A post row of the authoritative store, with its publish state. -/
structure Post where
  id : Nat
  slug : String
  published : Bool
deriving DecidableEq, Repr

/-- An affected entity `{id, slug}` as computed at mutation time
(the shape returned by `TagRepo.getPublishedPostsByTagId`). -/
structure AffectedPost where
  id : Nat
  slug : String
deriving DecidableEq, Repr

/-- The authoritative relational store: tags, posts, and the
post-tag association table (pairs `(postId, tagId)`). -/
structure Db where
  tags : List Tag
  posts : List Post
  postTags : List (Nat × Nat)
deriving DecidableEq, Repr

/-- A tag together with its (published-)post count, the shape cached
under the public-list key (`TagWithCountSchema`). -/
structure TagWithCount where
  id : Nat
  name : String
  postCount : Nat
deriving DecidableEq, Repr

/-! ## VersionedKeyStore / CacheService model

Modelled from the spec: the cache service wraps a durable key-value store
(entries keyed by string) together with per-namespace monotonic version
counters (absent counter reads as 0).  TTLs are not modelled: within one
invalidation job no entry expires. -/

/-- State of the durable key-value cache: present entries and the
per-namespace version counters (association lists). -/
structure CacheState (α : Type) where
  store : List (String × α)
  versions : List (String × Nat)
deriving DecidableEq, Repr

/-- Modelled from the spec: `getVersion(namespace)` returns the current
version counter, 0 if unset. -/
def getVersion {α : Type} (s : CacheState α) (ns : String) : Nat :=
  ((s.versions.find? (fun p => p.1 == ns)).map Prod.snd).getD 0

/-- Modelled from the spec: `bumpVersion(namespace)` atomically increments
the namespace counter. -/
def bumpVersion {α : Type} (s : CacheState α) (ns : String) : CacheState α :=
  { s with versions :=
      (ns, getVersion s ns + 1) :: s.versions.filter (fun p => p.1 != ns) }

/-- Modelled from the spec: `deleteKey(key)` removes the entry; idempotent,
deleting an absent key is not an error. -/
def deleteKey {α : Type} (s : CacheState α) (key : String) : CacheState α :=
  { s with store := s.store.filter (fun p => p.1 != key) }

/-- Modelled from the spec: the underlying store write `set(key, value, ttl)`
(TTL not modelled). -/
def setKey {α : Type} (s : CacheState α) (key : String) (v : α) : CacheState α :=
  { s with store := (key, v) :: s.store.filter (fun p => p.1 != key) }

/-- Modelled from the spec: the underlying store read `get(key)`. -/
def getKey {α : Type} (s : CacheState α) (key : String) : Option α :=
  (s.store.find? (fun p => p.1 == key)).map Prod.snd

/-- Modelled from the spec: `CacheService.get(key, schema, compute, ttl)`:
return the cached value if present and schema-valid; otherwise call
`compute`, store its result and return it.  The third component records
whether `compute` was invoked. -/
def cacheGet {α : Type} (s : CacheState α) (key : String) (valid : α → Bool)
    (compute : α) : α × CacheState α × Bool :=
  match getKey s key with
  | some v => if valid v then (v, s, false) else (compute, setKey s key compute, true)
  | none => (compute, setKey s key compute, true)

/-- Modelled from the spec: the fixed constant key for the single aggregate
public tag list (`TAGS_CACHE_KEYS.publicList`); the exact constant is not in
the snapshot, only its uniqueness matters. -/
def publicListKey : String := "tags:public-list"

/-- Modelled from the spec: version-scoped key naming
`"namespace:v<version>:<discriminator>"` for `POSTS_CACHE_KEYS.detail`. -/
def postDetailKey (version : Nat) (slug : String) : String :=
  "posts:detail:v" ++ toString version ++ ":" ++ slug

/-- One cache/edge operation issued by the invalidation orchestrator, in
issue order (reads of version counters are recorded too). -/
inductive CacheOp where
  | delete (key : String)
  | bump (ns : String)
  | readVersion (ns : String)
  | purgeCDN (urls : List String)
deriving DecidableEq, Repr

/-! ## TagRepo model

Modelled from the spec: the relational query layer is "a thin collaborator";
its code is not in the snapshot.  Sorting uses insertion sort; `createdAt`
ordering is modelled by the id order (ids are assigned increasingly). -/

/-- Insert `a` into `l` keeping the comparator order. -/
def insertLe {α : Type} (le : α → α → Bool) (a : α) : List α → List α
  | [] => [a]
  | b :: l => if le a b then a :: b :: l else b :: insertLe le a l

/-- Insertion sort by a boolean comparator. -/
def insertionSort {α : Type} (le : α → α → Bool) : List α → List α
  | [] => []
  | a :: l => insertLe le a (insertionSort le l)

/-- Sort columns accepted by the service input (`GetTagsInput.sortBy`). -/
inductive SortField where
  | name
  | createdAt
  | postCount
deriving DecidableEq, Repr

/-- Sort columns the plain-tag repository query accepts
(`TagRepo.getAllTags` cannot sort by a count it does not compute). -/
inductive PlainSortField where
  | name
  | createdAt
deriving DecidableEq, Repr

/-- Sort direction. -/
inductive SortDir where
  | asc
  | desc
deriving DecidableEq, Repr

/-- Comparator for plain tag rows under a sort column and direction. -/
def tagLe (field : PlainSortField) (dir : SortDir) (a b : Tag) : Bool :=
  match field, dir with
  | .name, .asc => decide (a.name ≤ b.name)
  | .name, .desc => decide (b.name ≤ a.name)
  | .createdAt, .asc => decide (a.id ≤ b.id)
  | .createdAt, .desc => decide (b.id ≤ a.id)

/-- Modelled from the spec: `TagRepo.getAllTags` returns all tag rows sorted
by the requested column and direction. -/
def getAllTags (db : Db) (field : PlainSortField) (dir : SortDir) : List Tag :=
  insertionSort (tagLe field dir) db.tags

/-- Number of posts associated with `tagId`; `publicOnly` restricts the
count to published posts. -/
def postCountOf (db : Db) (tagId : Nat) (publicOnly : Bool) : Nat :=
  (db.posts.filter (fun p =>
    (!publicOnly || p.published) && db.postTags.contains (p.id, tagId))).length

/-- Comparator for tag-with-count rows under a sort column and direction. -/
def twcLe (field : SortField) (dir : SortDir) (a b : TagWithCount) : Bool :=
  match field, dir with
  | .name, .asc => decide (a.name ≤ b.name)
  | .name, .desc => decide (b.name ≤ a.name)
  | .createdAt, .asc => decide (a.id ≤ b.id)
  | .createdAt, .desc => decide (b.id ≤ a.id)
  | .postCount, .asc => decide (a.postCount ≤ b.postCount)
  | .postCount, .desc => decide (b.postCount ≤ a.postCount)

/-- Modelled from the spec: `TagRepo.getAllTagsWithCount` returns tags with
their associated-post counts (published only when `publicOnly`), sorted. -/
def getAllTagsWithCount (db : Db) (field : SortField) (dir : SortDir)
    (publicOnly : Bool) : List TagWithCount :=
  insertionSort (twcLe field dir)
    (db.tags.map (fun t => ⟨t.id, t.name, postCountOf db t.id publicOnly⟩))

/-- Modelled from the spec: `TagRepo.nameExists(db, name)`. -/
def nameExists (db : Db) (name : String) : Bool :=
  db.tags.any (fun t => t.name == name)

/-- Modelled from the spec: `TagRepo.nameExists(db, name, excludeId)`. -/
def nameExistsExcluding (db : Db) (name : String) (excludeId : Nat) : Bool :=
  db.tags.any (fun t => t.name == name && t.id != excludeId)

/-- Fresh id for an inserted tag (one more than the current maximum). -/
def freshTagId (db : Db) : Nat :=
  (db.tags.map Tag.id).foldr max 0 + 1

/-- Modelled from the spec: `TagRepo.insertTag` appends a new row and
returns it. -/
def insertTag (db : Db) (name : String) : Tag × Db :=
  let t : Tag := ⟨freshTagId db, name⟩
  (t, { db with tags := db.tags ++ [t] })

/-- Modelled from the spec: `TagRepo.findTagById`. -/
def findTagById (db : Db) (id : Nat) : Option Tag :=
  db.tags.find? (fun t => t.id == id)

/-- Modelled from the spec: `TagRepo.getPublishedPostsByTagId` lists
`{id, slug}` of the published posts associated with the tag. -/
def getPublishedPostsByTagId (db : Db) (tagId : Nat) : List AffectedPost :=
  (db.posts.filter (fun p =>
    p.published && db.postTags.contains (p.id, tagId))).map
    (fun p => ⟨p.id, p.slug⟩)

/-- Modelled from the spec: `TagRepo.deleteTag` removes the tag row and its
associations. -/
def repoDeleteTag (db : Db) (id : Nat) : Db :=
  { db with tags := db.tags.filter (fun t => t.id != id),
            postTags := db.postTags.filter (fun a => a.2 != id) }

/-- Modelled from the spec: `TagRepo.updateTag` applies the payload (here:
an optional new name) to the row and returns the updated row. -/
def repoUpdateTag (db : Db) (id : Nat) (newName : Option String) : Db :=
  { db with tags := db.tags.map (fun t =>
      if t.id == id then
        match newName with
        | some n => { t with name := n }
        | none => t
      else t) }

/-- Modelled from the spec: `TagRepo.setPostTags` replaces the association
rows of `postId` with one row per given tag id. -/
def repoSetPostTags (db : Db) (postId : Nat) (tagIds : List Nat) : Db :=
  { db with postTags :=
      db.postTags.filter (fun a => a.1 != postId)
        ++ tagIds.map (fun tid => (postId, tid)) }

/-! ## Service layer (translated from `src/features/tags/tags.service.ts`) -/

/-- Input of `getTags`, with the defaults of the source. -/
structure GetTagsInput where
  sortBy : SortField := .name
  sortDir : SortDir := .asc
  withCount : Bool := false
  publicOnly : Bool := false
deriving DecidableEq, Repr

/-- Result of `getTags` (`Array<Tag | TagWithCount>` in the source: a plain
list when `withCount` is false, a with-count list otherwise). -/
inductive TagsResult where
  | plain (l : List Tag)
  | withCount (l : List TagWithCount)
deriving DecidableEq, Repr

/-- `getTags`: with counts it forwards `sortBy` to the with-count query;
without counts it queries plain rows, substituting `name` for a requested
`postCount` sort. -/
def getTags (db : Db) (data : GetTagsInput) : TagsResult :=
  if data.withCount then
    .withCount (getAllTagsWithCount db data.sortBy data.sortDir data.publicOnly)
  else
    .plain (getAllTags db
      (match data.sortBy with
       | .postCount => .name
       | .name => .name
       | .createdAt => .createdAt)
      data.sortDir)

/-- `getPublicTags`: cached read of the public tag list under the constant
public-list key; the compute closure queries published-only counts sorted by
`postCount` descending.  The schema check always passes on well-typed values,
hence the constant-true validator. -/
def getPublicTags (db : Db) (cache : CacheState (List TagWithCount)) :
    List TagWithCount × CacheState (List TagWithCount) × Bool :=
  cacheGet cache publicListKey (fun _ => true)
    (getAllTagsWithCount db .postCount .desc true)

/-- `invalidateTagRelatedCache`: delete the public-list key, then either the
precise path (non-empty affected set: bump `posts:list`, read the
`posts:detail` version once, delete each affected detail key, purge shared
and per-post URLs) or the conservative path (empty set: bump both namespaces,
purge only shared URLs).  Returns the new cache state and the issued
operations in issue order (the CDN purge does not touch the KV state). -/
def invalidateTagRelatedCache {α : Type} (s : CacheState α)
    (affectedPosts : List AffectedPost) : CacheState α × List CacheOp :=
  let s1 := deleteKey s publicListKey
  if affectedPosts.length > 0 then
    let s2 := bumpVersion s1 "posts:list"
    let version := getVersion s2 "posts:detail"
    let s3 := affectedPosts.foldl
      (fun acc p => deleteKey acc (postDetailKey version p.slug)) s2
    let cdnUrls := ["/", "/posts"] ++ affectedPosts.map (fun p => "/post/" ++ p.slug)
    (s3,
      [CacheOp.delete publicListKey, CacheOp.bump "posts:list",
       CacheOp.readVersion "posts:detail"]
        ++ affectedPosts.map (fun p => CacheOp.delete (postDetailKey version p.slug))
        ++ [CacheOp.purgeCDN cdnUrls])
  else
    (bumpVersion (bumpVersion s1 "posts:detail") "posts:list",
      [CacheOp.delete publicListKey, CacheOp.bump "posts:detail",
       CacheOp.bump "posts:list", CacheOp.purgeCDN ["/", "/posts"]])

/-- Error reasons returned by the admin mutations. -/
inductive TagError where
  | TAG_NOT_FOUND
  | TAG_NAME_ALREADY_EXISTS
deriving DecidableEq, Repr

/-- `ok`/`err` result wrapper (`@/lib/error`). -/
inductive TagResult (α : Type) where
  | ok (v : α)
  | err (e : TagError)
deriving DecidableEq, Repr

/-- `createTag`: reject a duplicate name, otherwise insert and return the
new row.  Returns the outcome and the store afterwards. -/
def createTag (db : Db) (name : String) : TagResult Tag × Db :=
  if nameExists db name then
    (.err .TAG_NAME_ALREADY_EXISTS, db)
  else
    let r := insertTag db name
    (.ok r.1, r.2)

/-- Input of `updateTag` (`data.id` and the payload `data.data.name`;
`none` models an absent name field). -/
structure UpdateTagInput where
  id : Nat
  newName : Option String
deriving DecidableEq, Repr

/-- Truthiness of `data.data.name` followed by the inequality test, as in
the source condition `data.data.name && data.data.name !== existingTag.name`
(an empty string is falsy in the source language). -/
def wantsNameCheck (newName : Option String) (current : String) : Bool :=
  match newName with
  | some n => !(n == "") && !(n == current)
  | none => false

/-- `updateTag` up to the store commit: outcome, store afterwards, and the
deferred invalidation job (`some affectedPosts` exactly when the mutation
committed; the job itself runs in the background, see the endpoint below). -/
def updateTagService (db : Db) (input : UpdateTagInput) :
    TagResult Tag × Db × Option (List AffectedPost) :=
  match findTagById db input.id with
  | none => (.err .TAG_NOT_FOUND, db, none)
  | some existingTag =>
    if wantsNameCheck input.newName existingTag.name
        && nameExistsExcluding db
            (input.newName.getD existingTag.name) input.id then
      (.err .TAG_NAME_ALREADY_EXISTS, db, none)
    else
      let affected := getPublishedPostsByTagId db input.id
      let updated : Tag :=
        match input.newName with
        | some n => { existingTag with name := n }
        | none => existingTag
      (.ok updated, repoUpdateTag db input.id input.newName, some affected)

/-- `deleteTag` up to the store commit: store afterwards and the deferred
invalidation job (affected posts are fetched before the delete). -/
def deleteTagService (db : Db) (id : Nat) : Db × Option (List AffectedPost) :=
  match findTagById db id with
  | none => (db, none)
  | some _ =>
    let affected := getPublishedPostsByTagId db id
    (repoDeleteTag db id, some affected)

/-- The background task runner: a dispatched job may run to completion or be
lost (`ran = false`); either way nothing flows back to the caller. -/
def runJob {α : Type} (cache : CacheState α)
    (job : Option (List AffectedPost)) (ran : Bool) : CacheState α :=
  match job with
  | some posts => if ran then (invalidateTagRelatedCache cache posts).1 else cache
  | none => cache

/-- The `updateTag` endpoint: commit to the store, hand the invalidation job
to the background runner (`waitUntil`, not awaited), return the store
outcome. -/
def updateTagEndpoint {α : Type} (db : Db) (cache : CacheState α)
    (input : UpdateTagInput) (ran : Bool) :
    TagResult Tag × Db × CacheState α :=
  let r := updateTagService db input
  (r.1, r.2.1, runJob cache r.2.2 ran)

/-- The `deleteTag` endpoint, same shape (its value is `void`). -/
def deleteTagEndpoint {α : Type} (db : Db) (cache : CacheState α)
    (id : Nat) (ran : Bool) : Db × CacheState α :=
  let r := deleteTagService db id
  (r.1, runJob cache r.2 ran)

/-- `setPostTags`: writes the association table only; the source performs no
cache operation here (its comment: edit-only, the KV is refreshed at publish
time).  The returned trace lists the cache/edge operations issued: none. -/
def setPostTagsService {α : Type} (db : Db) (cache : CacheState α)
    (postId : Nat) (tagIds : List Nat) : Db × CacheState α × List CacheOp :=
  (repoSetPostTags db postId tagIds, cache, [])

/-! ## A sequence of cache-service operations, for the monotonicity claim -/

/-- One operation against the versioned key-value store: the CacheService
surface (`deleteKey`, `bumpVersion`, raw `set`, get-or-compute).  `getVersion`
reads do not change the state. -/
inductive StoreOp (α : Type) where
  | del (key : String)
  | bump (ns : String)
  | set (key : String) (v : α)
  | getOrCompute (key : String) (valid : α → Bool) (compute : α)

/-- Apply one store operation to the cache state. -/
def applyStoreOp {α : Type} (s : CacheState α) : StoreOp α → CacheState α
  | .del k => deleteKey s k
  | .bump ns => bumpVersion s ns
  | .set k v => setKey s k v
  | .getOrCompute k valid c => (cacheGet s k valid c).2.1

/-- Apply a sequence of store operations, oldest first. -/
def applyStoreOps {α : Type} (s : CacheState α) (ops : List (StoreOp α)) :
    CacheState α :=
  ops.foldl applyStoreOp s

/-! ## Helper lemmas on the cache-state operations -/

theorem find?_filter_ne {α : Type} (l : List (String × α)) (ns m : String)
    (h : ns ≠ m) :
    (l.filter (fun p => p.1 != m)).find? (fun p => p.1 == ns)
      = l.find? (fun p => p.1 == ns) := by
  induction l with
  | nil => rfl
  | cons a l ih =>
    by_cases ha : a.1 = m
    · have hns : (a.1 == ns) = false := by
        simp [ha]
        exact fun hc => h hc.symm
      have hmn : (m == ns) = false := by
        simp
        exact fun hc => h hc.symm
      simp [List.filter_cons, List.find?_cons, ha, hns, hmn, ih]
    · by_cases hb : a.1 = ns
      · simp [List.filter_cons, List.find?_cons, ha, hb, h]
      · simp [List.filter_cons, List.find?_cons, ha, hb, ih]

theorem find?_filter_self_ne {α : Type} (l : List (String × α)) (k : String) :
    (l.filter (fun p => p.1 != k)).find? (fun p => p.1 == k) = none := by
  rw [List.find?_eq_none]
  intro x hx
  have hcond := List.of_mem_filter hx
  simp at hcond ⊢
  exact hcond

theorem find?_none_filter {α : Type} (l : List (String × α))
    (q p : String × α → Bool) (h : l.find? p = none) :
    (l.filter q).find? p = none := by
  rw [List.find?_eq_none] at h ⊢
  intro x hx
  exact h x (List.mem_of_mem_filter hx)

theorem getKey_eq_none_iff {α : Type} (s : CacheState α) (key : String) :
    getKey s key = none ↔ s.store.find? (fun p => p.1 == key) = none := by
  simp [getKey]

theorem getVersion_deleteKey {α : Type} (s : CacheState α) (k ns : String) :
    getVersion (deleteKey s k) ns = getVersion s ns := rfl

theorem getVersion_setKey {α : Type} (s : CacheState α) (k ns : String) (v : α) :
    getVersion (setKey s k v) ns = getVersion s ns := rfl

theorem getVersion_bumpVersion_self {α : Type} (s : CacheState α) (ns : String) :
    getVersion (bumpVersion s ns) ns = getVersion s ns + 1 := by
  simp [bumpVersion, getVersion, List.find?_cons]

theorem getVersion_bumpVersion_ne {α : Type} (s : CacheState α) (ns m : String)
    (h : ns ≠ m) : getVersion (bumpVersion s m) ns = getVersion s ns := by
  have hm : (m == ns) = false := by
    simp
    exact fun hc => h hc.symm
  simp [bumpVersion, getVersion, List.find?_cons, hm, find?_filter_ne s.versions ns m h]

theorem getKey_deleteKey_self {α : Type} (s : CacheState α) (k : String) :
    getKey (deleteKey s k) k = none := by
  rw [getKey_eq_none_iff]
  exact find?_filter_self_ne s.store k

theorem getKey_deleteKey_none {α : Type} (s : CacheState α) (k key : String)
    (h : getKey s key = none) : getKey (deleteKey s k) key = none := by
  rw [getKey_eq_none_iff] at h ⊢
  exact find?_none_filter s.store _ _ h

theorem getKey_bumpVersion {α : Type} (s : CacheState α) (m key : String) :
    getKey (bumpVersion s m) key = getKey s key := rfl

theorem getKey_foldl_deleteKey_none {α β : Type} (f : β → String)
    (l : List β) (s : CacheState α) (key : String)
    (h : getKey s key = none) :
    getKey (l.foldl (fun acc p => deleteKey acc (f p)) s) key = none := by
  induction l generalizing s with
  | nil => exact h
  | cons a l ih =>
    simp only [List.foldl_cons]
    exact ih (deleteKey s (f a)) (getKey_deleteKey_none s (f a) key h)

theorem getKey_setKey_self {α : Type} (s : CacheState α) (k : String) (v : α) :
    getKey (setKey s k v) k = some v := by
  simp [getKey, setKey, List.find?_cons]

theorem mem_insertLe {α : Type} (le : α → α → Bool) (a x : α) (l : List α) :
    x ∈ insertLe le a l ↔ x = a ∨ x ∈ l := by
  induction l with
  | nil => simp [insertLe]
  | cons b l ih =>
    by_cases hc : le a b = true
    · simp [insertLe, hc]
      try tauto
    · simp [insertLe, hc, ih]
      try tauto

theorem pairwise_insertLe {α : Type} (le : α → α → Bool)
    (total : ∀ a b, le a b = true ∨ le b a = true)
    (htrans : ∀ a b c, le a b = true → le b c = true → le a c = true)
    (a : α) (l : List α)
    (h : l.Pairwise (fun x y => le x y = true)) :
    (insertLe le a l).Pairwise (fun x y => le x y = true) := by
  induction l with
  | nil => simp [insertLe]
  | cons b l ih =>
    rcases List.pairwise_cons.mp h with ⟨hb, hl⟩
    by_cases hc : le a b = true
    · have he : insertLe le a (b :: l) = a :: b :: l := by
        simp [insertLe, hc]
      rw [he]
      refine List.pairwise_cons.mpr ⟨?_, h⟩
      intro x hx
      rcases List.mem_cons.mp hx with rfl | hx
      · exact hc
      · exact htrans a b x hc (hb x hx)
    · have he : insertLe le a (b :: l) = b :: insertLe le a l := by
        simp [insertLe, hc]
      rw [he]
      refine List.pairwise_cons.mpr ⟨?_, ih hl⟩
      intro x hx
      rcases (mem_insertLe le a x l).mp hx with hax | hx
      · rw [hax]
        rcases total a b with h1 | h1
        · exact absurd h1 hc
        · exact h1
      · exact hb x hx

theorem pairwise_insertionSort {α : Type} (le : α → α → Bool)
    (total : ∀ a b, le a b = true ∨ le b a = true)
    (htrans : ∀ a b c, le a b = true → le b c = true → le a c = true)
    (l : List α) :
    (insertionSort le l).Pairwise (fun x y => le x y = true) := by
  induction l with
  | nil => simp [insertionSort]
  | cons a l ih => exact pairwise_insertLe le total htrans a _ ih

theorem tagLe_name_total (dir : SortDir) (a b : Tag) :
    tagLe .name dir a b = true ∨ tagLe .name dir b a = true := by
  cases dir
  · show decide (a.name ≤ b.name) = true ∨ decide (b.name ≤ a.name) = true
    rcases le_total a.name b.name with h | h
    · exact Or.inl (decide_eq_true h)
    · exact Or.inr (decide_eq_true h)
  · show decide (b.name ≤ a.name) = true ∨ decide (a.name ≤ b.name) = true
    rcases le_total b.name a.name with h | h
    · exact Or.inl (decide_eq_true h)
    · exact Or.inr (decide_eq_true h)

theorem tagLe_name_trans (dir : SortDir) (a b c : Tag)
    (h1 : tagLe .name dir a b = true) (h2 : tagLe .name dir b c = true) :
    tagLe .name dir a c = true := by
  cases dir
  · exact decide_eq_true (le_trans (of_decide_eq_true h1) (of_decide_eq_true h2))
  · exact decide_eq_true (le_trans (of_decide_eq_true h2) (of_decide_eq_true h1))

theorem getVersion_cacheGet {α : Type} (s : CacheState α) (k : String)
    (valid : α → Bool) (c : α) (ns : String) :
    getVersion (cacheGet s k valid c).2.1 ns = getVersion s ns := by
  cases hk : getKey s k with
  | none => simp [cacheGet, hk, getVersion_setKey]
  | some v =>
    by_cases hv : valid v = true
    · simp [cacheGet, hk, hv]
    · simp [cacheGet, hk, hv, getVersion_setKey]

theorem getVersion_le_applyStoreOp {α : Type} (s : CacheState α)
    (op : StoreOp α) (ns : String) :
    getVersion s ns ≤ getVersion (applyStoreOp s op) ns := by
  cases op with
  | del k => rw [applyStoreOp, getVersion_deleteKey]
  | set k v => rw [applyStoreOp, getVersion_setKey]
  | bump m =>
    by_cases h : ns = m
    · subst h
      rw [applyStoreOp, getVersion_bumpVersion_self]
      exact Nat.le_succ _
    · rw [applyStoreOp, getVersion_bumpVersion_ne s ns m h]
  | getOrCompute k valid c => rw [applyStoreOp, getVersion_cacheGet]

theorem invalidate_state_empty {α : Type} (s : CacheState α) :
    (invalidateTagRelatedCache s ([] : List AffectedPost)).1
      = bumpVersion (bumpVersion (deleteKey s publicListKey) "posts:detail")
          "posts:list" := rfl

theorem invalidate_cons_eq {α : Type} (s : CacheState α) (p : AffectedPost)
    (ps : List AffectedPost) :
    invalidateTagRelatedCache s (p :: ps)
      = ((p :: ps).foldl
          (fun acc q => deleteKey acc (postDetailKey
            (getVersion (bumpVersion (deleteKey s publicListKey) "posts:list")
              "posts:detail") q.slug))
          (bumpVersion (deleteKey s publicListKey) "posts:list"),
         [CacheOp.delete publicListKey, CacheOp.bump "posts:list",
          CacheOp.readVersion "posts:detail"]
           ++ (p :: ps).map (fun q => CacheOp.delete (postDetailKey
                (getVersion (bumpVersion (deleteKey s publicListKey) "posts:list")
                  "posts:detail") q.slug))
           ++ [CacheOp.purgeCDN (["/", "/posts"]
                ++ (p :: ps).map (fun q => "/post/" ++ q.slug))]) := by
  simp only [invalidateTagRelatedCache]
  rw [if_pos (by simp : (p :: ps).length > 0)]

theorem invalidate_state_cons {α : Type} (s : CacheState α) (p : AffectedPost)
    (ps : List AffectedPost) :
    (invalidateTagRelatedCache s (p :: ps)).1
      = (p :: ps).foldl
          (fun acc q => deleteKey acc (postDetailKey
            (getVersion (bumpVersion (deleteKey s publicListKey) "posts:list")
              "posts:detail") q.slug))
          (bumpVersion (deleteKey s publicListKey) "posts:list") := by
  rw [invalidate_cons_eq]

theorem getKey_invalidate_publicList {α : Type} (s : CacheState α)
    (posts : List AffectedPost) :
    getKey (invalidateTagRelatedCache s posts).1 publicListKey = none := by
  cases posts with
  | nil =>
    rw [invalidate_state_empty, getKey_bumpVersion, getKey_bumpVersion]
    exact getKey_deleteKey_self s publicListKey
  | cons p ps =>
    rw [invalidate_state_cons]
    apply getKey_foldl_deleteKey_none
    rw [getKey_bumpVersion]
    exact getKey_deleteKey_self s publicListKey

theorem invalidate_trace_head {α : Type} (s : CacheState α)
    (posts : List AffectedPost) :
    (invalidateTagRelatedCache s posts).2.head?
      = some (CacheOp.delete publicListKey) := by
  cases posts with
  | nil => rfl
  | cons p ps =>
    rw [invalidate_cons_eq]
    rfl

theorem cacheGet_twice {α : Type} (s : CacheState α) (key : String)
    (valid : α → Bool) (compute : α) (h : valid compute = true) :
    (cacheGet (cacheGet s key valid compute).2.1 key valid compute).2.2 = false
    ∧ (cacheGet (cacheGet s key valid compute).2.1 key valid compute).1
        = (cacheGet s key valid compute).1 := by
  cases hk : getKey s key with
  | none =>
    have h1 : cacheGet s key valid compute = (compute, setKey s key compute, true) := by
      simp [cacheGet, hk]
    rw [h1]
    have hg : getKey (setKey s key compute) key = some compute :=
      getKey_setKey_self s key compute
    constructor
    · simp [cacheGet, hg, h]
    · simp [cacheGet, hg, h]
  | some v =>
    by_cases hv : valid v = true
    · have h1 : cacheGet s key valid compute = (v, s, false) := by
        simp [cacheGet, hk, hv]
      rw [h1]
      constructor
      · simp [cacheGet, hk, hv]
      · simp [cacheGet, hk, hv]
    · have h1 : cacheGet s key valid compute = (compute, setKey s key compute, true) := by
        simp [cacheGet, hk, hv]
      rw [h1]
      have hg : getKey (setKey s key compute) key = some compute :=
        getKey_setKey_self s key compute
      constructor
      · simp [cacheGet, hg, h]
      · simp [cacheGet, hg, h]

/-! ## Claim theorems -/

/-- Claim C4, counterexample: with one published post and a populated
public-list cache whose value matches its recompute, writing a post-tag
association (`setPostTags`) changes the recomputed public view, yet issues
no cache operation and leaves the stale cached entry in place.  This refutes
the claim that every write to post-tag associations invalidates the cache
entries it makes stale. -/
theorem setPostTags_stale_cache_counterexample :
    getAllTagsWithCount (⟨[⟨1, "t1"⟩], [⟨1, "p1", true⟩], []⟩ : Db)
      .postCount .desc true = [⟨1, "t1", 0⟩]
    ∧ (setPostTagsService (⟨[⟨1, "t1"⟩], [⟨1, "p1", true⟩], []⟩ : Db)
        (⟨[(publicListKey, [⟨1, "t1", 0⟩])], []⟩ : CacheState (List TagWithCount))
        1 [1]).2.2 = []
    ∧ (setPostTagsService (⟨[⟨1, "t1"⟩], [⟨1, "p1", true⟩], []⟩ : Db)
        (⟨[(publicListKey, [⟨1, "t1", 0⟩])], []⟩ : CacheState (List TagWithCount))
        1 [1]).2.1
        = (⟨[(publicListKey, [⟨1, "t1", 0⟩])], []⟩ : CacheState (List TagWithCount))
    ∧ getAllTagsWithCount (setPostTagsService (⟨[⟨1, "t1"⟩], [⟨1, "p1", true⟩], []⟩ : Db)
        (⟨[(publicListKey, [⟨1, "t1", 0⟩])], []⟩ : CacheState (List TagWithCount))
        1 [1]).1 .postCount .desc true = [⟨1, "t1", 1⟩]
    ∧ getKey (setPostTagsService (⟨[⟨1, "t1"⟩], [⟨1, "p1", true⟩], []⟩ : Db)
        (⟨[(publicListKey, [⟨1, "t1", 0⟩])], []⟩ : CacheState (List TagWithCount))
        1 [1]).2.1 publicListKey = some [⟨1, "t1", 0⟩] := by
  refine ⟨?_, ?_, ?_, ?_, ?_⟩ <;> decide

/-- Claim C4, amended: `setPostTags` only writes the post-tag association
table; it issues no cache or edge operation and leaves the cache state
untouched (the KV view is refreshed by the publish workflow instead). -/
theorem setPostTags_no_invalidation {α : Type} (db : Db) (cache : CacheState α)
    (postId : Nat) (tagIds : List Nat) :
    (setPostTagsService db cache postId tagIds).2.1 = cache
    ∧ (setPostTagsService db cache postId tagIds).2.2 = ([] : List CacheOp)
    ∧ (setPostTagsService db cache postId tagIds).1.postTags
        = db.postTags.filter (fun a => a.1 != postId)
          ++ tagIds.map (fun tid => (postId, tid))
    ∧ (setPostTagsService db cache postId tagIds).1.tags = db.tags :=
  ⟨rfl, rfl, rfl, rfl⟩

/-- Claim C5: the values returned by the `updateTag` and `deleteTag`
endpoints are functions of the authoritative store and the input alone —
unchanged under any cache state and regardless of whether the dispatched
background invalidation ever runs (invalidation failures never surface). -/
theorem mutation_result_ignores_invalidation {α : Type} (db : Db)
    (c1 c2 : CacheState α) (input : UpdateTagInput) (id : Nat) (b1 b2 : Bool) :
    (updateTagEndpoint db c1 input b1).1 = (updateTagEndpoint db c2 input b2).1
    ∧ (updateTagEndpoint db c1 input b1).2.1
        = (updateTagEndpoint db c2 input b2).2.1
    ∧ (deleteTagEndpoint db c1 id b1).1 = (deleteTagEndpoint db c2 id b2).1 :=
  ⟨rfl, rfl, rfl⟩

/-- Claim C6: when a tag with name `x` already exists, `createTag x`
returns the `TAG_NAME_ALREADY_EXISTS` outcome and leaves the store
unchanged (no second row is inserted). -/
theorem createTag_duplicate_rejected (db : Db) (x : String) (t : Tag)
    (hmem : t ∈ db.tags) (hname : t.name = x) :
    createTag db x = (.err .TAG_NAME_ALREADY_EXISTS, db) := by
  have hex : nameExists db x = true := by
    rw [nameExists, List.any_eq_true]
    exact ⟨t, hmem, by simp [hname]⟩
  simp only [createTag]
  rw [if_pos hex]

/-- Witness for claim C6 at a concrete store. -/
theorem createTag_duplicate_rejected_witness :
    (⟨1, "X"⟩ : Tag) ∈ (⟨[⟨1, "X"⟩], [], []⟩ : Db).tags
    ∧ (⟨1, "X"⟩ : Tag).name = "X"
    ∧ createTag ⟨[⟨1, "X"⟩], [], []⟩ "X"
        = (.err .TAG_NAME_ALREADY_EXISTS, ⟨[⟨1, "X"⟩], [], []⟩) :=
  ⟨by decide, by decide,
    createTag_duplicate_rejected _ _ ⟨1, "X"⟩ (by decide) (by decide)⟩

/-- Claim C8: over any sequence of store operations the version counter of
every namespace is non-decreasing (only `bumpVersion` touches counters, and
it only increments), and an absent counter reads as 0. -/
theorem getVersion_monotone {α : Type} (ops : List (StoreOp α))
    (s : CacheState α) (ns : String) :
    getVersion s ns ≤ getVersion (applyStoreOps s ops) ns
    ∧ getVersion (⟨s.store, []⟩ : CacheState α) ns = 0 := by
  constructor
  · induction ops generalizing s with
    | nil => exact le_refl _
    | cons op ops ih =>
      have h1 := getVersion_le_applyStoreOp s op ns
      have h2 := ih (applyStoreOp s op)
      simp only [applyStoreOps, List.foldl_cons] at h2 ⊢
      exact le_trans h1 h2
  · rfl

/-- Claim C9: with `sortBy = postCount` and `withCount = false`, `getTags`
queries the plain-tag repository with `sortBy = name`, and the returned
list is therefore ordered by name. -/
theorem getTags_postCount_fallback_sorted_by_name (db : Db) (dir : SortDir)
    (po : Bool) :
    getTags db { sortBy := .postCount, sortDir := dir, withCount := false,
                 publicOnly := po }
      = .plain (getAllTags db .name dir)
    ∧ (getAllTags db .name dir).Pairwise
        (fun a b => tagLe .name dir a b = true) := by
  constructor
  · rfl
  · exact pairwise_insertionSort (tagLe .name dir) (tagLe_name_total dir)
      (fun a b c => tagLe_name_trans dir a b c) db.tags

/-- Claim C7: calling `CacheService.get` twice on the same key with no
intervening invalidation invokes `compute` at most once for the second call
(never, in fact) and returns the cached value equal to the first-call
result — both in general (given a schema-valid compute result) and as
exercised by `getPublicTags`. -/
theorem cacheGet_second_call_hits {α : Type} (s : CacheState α) (key : String)
    (valid : α → Bool) (compute : α) (db : Db)
    (cache : CacheState (List TagWithCount))
    (hvalid : valid compute = true) :
    ((cacheGet (cacheGet s key valid compute).2.1 key valid compute).2.2 = false
     ∧ (cacheGet (cacheGet s key valid compute).2.1 key valid compute).1
         = (cacheGet s key valid compute).1)
    ∧ ((getPublicTags db (getPublicTags db cache).2.1).2.2 = false
       ∧ (getPublicTags db (getPublicTags db cache).2.1).1
           = (getPublicTags db cache).1) := by
  refine ⟨cacheGet_twice s key valid compute hvalid, ?_⟩
  exact cacheGet_twice cache publicListKey (fun _ => true)
    (getAllTagsWithCount db .postCount .desc true) rfl

/-- Witness for claim C7 at a concrete key, validator, compute result,
store and cache. -/
theorem cacheGet_second_call_hits_witness :
    (fun _ : Nat => true) 7 = true
    ∧ (((cacheGet (cacheGet (⟨[], []⟩ : CacheState Nat) "k" (fun _ => true) 7).2.1
          "k" (fun _ => true) 7).2.2 = false
        ∧ (cacheGet (cacheGet (⟨[], []⟩ : CacheState Nat) "k" (fun _ => true) 7).2.1
            "k" (fun _ => true) 7).1
            = (cacheGet (⟨[], []⟩ : CacheState Nat) "k" (fun _ => true) 7).1)
       ∧ ((getPublicTags ⟨[], [], []⟩
            (getPublicTags ⟨[], [], []⟩ (⟨[], []⟩ : CacheState (List TagWithCount))).2.1).2.2
            = false
          ∧ (getPublicTags ⟨[], [], []⟩
              (getPublicTags ⟨[], [], []⟩ (⟨[], []⟩ : CacheState (List TagWithCount))).2.1).1
              = (getPublicTags ⟨[], [], []⟩
                  (⟨[], []⟩ : CacheState (List TagWithCount))).1)) :=
  ⟨rfl, cacheGet_second_call_hits (⟨[], []⟩ : CacheState Nat) "k" (fun _ => true) 7
    ⟨[], [], []⟩ (⟨[], []⟩ : CacheState (List TagWithCount)) rfl⟩

/-- Claim C1: an invalidation job with an empty affected-entities list takes
the conservative path — its operation trace is exactly the public-list
delete followed by bumps of both the `posts:detail` and `posts:list`
namespace versions and an edge purge of only the shared listing URLs (no
per-entity delete or purge); both versions strictly increase; and deleting
an existing tag with zero published posts produces exactly this empty job,
so the public-list key is absent afterwards. -/
theorem delete_no_posts_conservative_path {α : Type} (cache : CacheState α)
    (db : Db) (tagId : Nat) (t : Tag)
    (hfind : findTagById db tagId = some t)
    (hposts : getPublishedPostsByTagId db tagId = []) :
    (invalidateTagRelatedCache cache ([] : List AffectedPost)).2
      = [CacheOp.delete publicListKey, CacheOp.bump "posts:detail",
         CacheOp.bump "posts:list", CacheOp.purgeCDN ["/", "/posts"]]
    ∧ getVersion (invalidateTagRelatedCache cache ([] : List AffectedPost)).1
        "posts:detail" = getVersion cache "posts:detail" + 1
    ∧ getVersion (invalidateTagRelatedCache cache ([] : List AffectedPost)).1
        "posts:list" = getVersion cache "posts:list" + 1
    ∧ deleteTagService db tagId = (repoDeleteTag db tagId, some [])
    ∧ getKey (deleteTagEndpoint db cache tagId true).2 publicListKey = none := by
  have hdetail : getVersion (invalidateTagRelatedCache cache ([] : List AffectedPost)).1
      "posts:detail" = getVersion cache "posts:detail" + 1 := by
    rw [invalidate_state_empty, getVersion_bumpVersion_ne _ _ _ (by decide),
        getVersion_bumpVersion_self, getVersion_deleteKey]
  have hlist : getVersion (invalidateTagRelatedCache cache ([] : List AffectedPost)).1
      "posts:list" = getVersion cache "posts:list" + 1 := by
    rw [invalidate_state_empty, getVersion_bumpVersion_self,
        getVersion_bumpVersion_ne _ _ _ (by decide), getVersion_deleteKey]
  have hserv : deleteTagService db tagId = (repoDeleteTag db tagId, some []) := by
    simp [deleteTagService, hfind, hposts]
  have hend : (deleteTagEndpoint db cache tagId true).2
      = (invalidateTagRelatedCache cache ([] : List AffectedPost)).1 := by
    simp [deleteTagEndpoint, runJob, hserv]
  refine ⟨rfl, hdetail, hlist, hserv, ?_⟩
  rw [hend]
  exact getKey_invalidate_publicList cache []

/-- Witness for claim C1: a store holding one tag with no published posts,
and a concrete cache state. -/
theorem delete_no_posts_conservative_path_witness :
    findTagById ⟨[⟨1, "t"⟩], [], []⟩ 1 = some ⟨1, "t"⟩
    ∧ getPublishedPostsByTagId ⟨[⟨1, "t"⟩], [], []⟩ 1 = []
    ∧ ((invalidateTagRelatedCache (⟨[], []⟩ : CacheState Nat)
          ([] : List AffectedPost)).2
        = [CacheOp.delete publicListKey, CacheOp.bump "posts:detail",
           CacheOp.bump "posts:list", CacheOp.purgeCDN ["/", "/posts"]]
       ∧ getVersion (invalidateTagRelatedCache (⟨[], []⟩ : CacheState Nat)
            ([] : List AffectedPost)).1 "posts:detail"
           = getVersion (⟨[], []⟩ : CacheState Nat) "posts:detail" + 1
       ∧ getVersion (invalidateTagRelatedCache (⟨[], []⟩ : CacheState Nat)
            ([] : List AffectedPost)).1 "posts:list"
           = getVersion (⟨[], []⟩ : CacheState Nat) "posts:list" + 1
       ∧ deleteTagService ⟨[⟨1, "t"⟩], [], []⟩ 1
           = (repoDeleteTag ⟨[⟨1, "t"⟩], [], []⟩ 1, some [])
       ∧ getKey (deleteTagEndpoint ⟨[⟨1, "t"⟩], [], []⟩
            (⟨[], []⟩ : CacheState Nat) 1 true).2 publicListKey = none) :=
  ⟨by decide, by decide,
    delete_no_posts_conservative_path (⟨[], []⟩ : CacheState Nat)
      ⟨[⟨1, "t"⟩], [], []⟩ 1 ⟨1, "t"⟩ (by decide) (by decide)⟩

/-- Claim C2: an invalidation job with a non-empty affected-entities list
takes the precise path — its trace is exactly the public-list delete, one
bump of `posts:list`, a single read of the `posts:detail` version, one
delete of the detail key of each affected entity computed from that one version
value, and one edge purge of exactly the shared listing URLs plus one
canonical URL per affected entity. -/
theorem nonempty_precise_path {α : Type} (cache : CacheState α)
    (posts : List AffectedPost) (hne : posts ≠ []) :
    (invalidateTagRelatedCache cache posts).2
      = [CacheOp.delete publicListKey, CacheOp.bump "posts:list",
         CacheOp.readVersion "posts:detail"]
        ++ posts.map (fun p => CacheOp.delete
            (postDetailKey (getVersion cache "posts:detail") p.slug))
        ++ [CacheOp.purgeCDN (["/", "/posts"]
            ++ posts.map (fun p => "/post/" ++ p.slug))]
    ∧ (invalidateTagRelatedCache cache posts).2.count
        (CacheOp.readVersion "posts:detail") = 1 := by
  cases posts with
  | nil => exact absurd rfl hne
  | cons p ps =>
    have hv : getVersion (bumpVersion (deleteKey cache publicListKey)
        "posts:list") "posts:detail" = getVersion cache "posts:detail" := by
      rw [getVersion_bumpVersion_ne _ _ _ (by decide), getVersion_deleteKey]
    have htr : (invalidateTagRelatedCache cache (p :: ps)).2
        = [CacheOp.delete publicListKey, CacheOp.bump "posts:list",
           CacheOp.readVersion "posts:detail"]
          ++ (p :: ps).map (fun q => CacheOp.delete
              (postDetailKey (getVersion cache "posts:detail") q.slug))
          ++ [CacheOp.purgeCDN (["/", "/posts"]
              ++ (p :: ps).map (fun q => "/post/" ++ q.slug))] := by
      rw [invalidate_cons_eq, hv]
    refine ⟨htr, ?_⟩
    rw [htr, List.count_append, List.count_append]
    have h1 : ([CacheOp.delete publicListKey, CacheOp.bump "posts:list",
        CacheOp.readVersion "posts:detail"]).count
        (CacheOp.readVersion "posts:detail") = 1 := by decide
    have h2 : ((p :: ps).map (fun q => CacheOp.delete
        (postDetailKey (getVersion cache "posts:detail") q.slug))).count
        (CacheOp.readVersion "posts:detail") = 0 := by
      rw [List.count_eq_zero]
      intro hmem
      rcases List.mem_map.mp hmem with ⟨q, hq, heq⟩
      exact CacheOp.noConfusion heq
    have h3 : ([CacheOp.purgeCDN (["/", "/posts"]
        ++ (p :: ps).map (fun q => "/post/" ++ q.slug))]).count
        (CacheOp.readVersion "posts:detail") = 0 := by
      rw [List.count_eq_zero]
      intro hmem
      have heq := List.mem_singleton.mp hmem
      exact CacheOp.noConfusion heq
    rw [h1, h2, h3]

/-- Witness for claim C2: one affected post and a concrete cache state. -/
theorem nonempty_precise_path_witness :
    ([⟨1, "a"⟩] : List AffectedPost) ≠ []
    ∧ ((invalidateTagRelatedCache (⟨[], []⟩ : CacheState Nat)
          [⟨1, "a"⟩]).2
        = [CacheOp.delete publicListKey, CacheOp.bump "posts:list",
           CacheOp.readVersion "posts:detail"]
          ++ ([⟨1, "a"⟩] : List AffectedPost).map (fun p => CacheOp.delete
              (postDetailKey (getVersion (⟨[], []⟩ : CacheState Nat)
                "posts:detail") p.slug))
          ++ [CacheOp.purgeCDN (["/", "/posts"]
              ++ ([⟨1, "a"⟩] : List AffectedPost).map
                  (fun p => "/post/" ++ p.slug))]
       ∧ (invalidateTagRelatedCache (⟨[], []⟩ : CacheState Nat)
            [⟨1, "a"⟩]).2.count (CacheOp.readVersion "posts:detail") = 1) :=
  ⟨by decide,
    nonempty_precise_path (⟨[], []⟩ : CacheState Nat) [⟨1, "a"⟩] (by decide)⟩

/-- Claim C3: every invalidation job deletes the well-known public-list key
first (it is the head of the trace for empty and non-empty jobs alike) and
leaves it absent; in particular after a committed `updateTag` (rename) whose
background job has run, the public-list key is absent. -/
theorem public_list_always_deleted {α : Type} (cache : CacheState α)
    (posts : List AffectedPost) (db : Db) (input : UpdateTagInput)
    (ps : List AffectedPost)
    (hjob : (updateTagService db input).2.2 = some ps) :
    (invalidateTagRelatedCache cache posts).2.head?
      = some (CacheOp.delete publicListKey)
    ∧ getKey (invalidateTagRelatedCache cache posts).1 publicListKey = none
    ∧ getKey (updateTagEndpoint db cache input true).2.2 publicListKey = none := by
  refine ⟨invalidate_trace_head cache posts,
    getKey_invalidate_publicList cache posts, ?_⟩
  have hend : (updateTagEndpoint db cache input true).2.2
      = (invalidateTagRelatedCache cache ps).1 := by
    simp [updateTagEndpoint, runJob, hjob]
  rw [hend]
  exact getKey_invalidate_publicList cache ps

/-- Witness for claim C3: a successful rename of the only tag, with a
populated cache. -/
theorem public_list_always_deleted_witness :
    (updateTagService ⟨[⟨1, "old"⟩], [], []⟩ ⟨1, some "new"⟩).2.2 = some []
    ∧ ((invalidateTagRelatedCache (⟨[(publicListKey, 0)], []⟩ : CacheState Nat)
          ([] : List AffectedPost)).2.head?
        = some (CacheOp.delete publicListKey)
       ∧ getKey (invalidateTagRelatedCache
            (⟨[(publicListKey, 0)], []⟩ : CacheState Nat)
            ([] : List AffectedPost)).1 publicListKey = none
       ∧ getKey (updateTagEndpoint ⟨[⟨1, "old"⟩], [], []⟩
            (⟨[(publicListKey, 0)], []⟩ : CacheState Nat)
            ⟨1, some "new"⟩ true).2.2 publicListKey = none) :=
  ⟨by decide,
    public_list_always_deleted (⟨[(publicListKey, 0)], []⟩ : CacheState Nat)
      ([] : List AffectedPost) ⟨[⟨1, "old"⟩], [], []⟩ ⟨1, some "new"⟩ []
      (by decide)⟩

/-- Claim C10: `updateTag` on an existing tag skips the name-uniqueness
check when the payload has no name or repeats the current name — the result
is then `ok` with the unchanged name — and the duplicate-name error can only
arise when the new name differs from the current one and already belongs to
another tag. -/
theorem updateTag_name_check_conditions (db1 db2 : Db)
    (inp1 inp2 : UpdateTagInput) (t : Tag)
    (hfind : findTagById db1 inp1.id = some t)
    (hskip : inp1.newName = none ∨ inp1.newName = some t.name) :
    (updateTagService db1 inp1).1 = .ok t
    ∧ ((updateTagService db2 inp2).1 = .err .TAG_NAME_ALREADY_EXISTS →
        ∃ u n, findTagById db2 inp2.id = some u ∧ inp2.newName = some n
          ∧ n ≠ u.name ∧ nameExistsExcluding db2 n inp2.id = true) := by
  constructor
  · rcases hskip with hn | hn
    · simp [updateTagService, hfind, hn, wantsNameCheck]
    · simp [updateTagService, hfind, hn, wantsNameCheck]
  · intro h
    cases hf : findTagById db2 inp2.id with
    | none => simp [updateTagService, hf] at h
    | some u =>
      by_cases hc : (wantsNameCheck inp2.newName u.name
          && nameExistsExcluding db2 (inp2.newName.getD u.name) inp2.id) = true
      · cases hn : inp2.newName with
        | none =>
          rw [hn] at hc
          simp [wantsNameCheck] at hc
        | some n =>
          rw [hn] at hc
          simp [wantsNameCheck] at hc
          obtain ⟨⟨hne1, hne2⟩, hex⟩ := hc
          exact ⟨u, n, rfl, rfl, hne2, hex⟩
      · rw [Bool.not_eq_true] at hc
        simp [updateTagService, hf, hc] at h

/-- Witness for claim C10: a payload with no name on an existing tag. -/
theorem updateTag_name_check_conditions_witness :
    findTagById ⟨[⟨1, "a"⟩], [], []⟩ (⟨1, none⟩ : UpdateTagInput).id
      = some ⟨1, "a"⟩
    ∧ ((⟨1, none⟩ : UpdateTagInput).newName = none
        ∨ (⟨1, none⟩ : UpdateTagInput).newName = some (⟨1, "a"⟩ : Tag).name)
    ∧ ((updateTagService ⟨[⟨1, "a"⟩], [], []⟩ ⟨1, none⟩).1 = .ok ⟨1, "a"⟩
       ∧ ((updateTagService ⟨[⟨1, "b"⟩], [], []⟩ ⟨1, some "c"⟩).1
            = .err .TAG_NAME_ALREADY_EXISTS →
           ∃ u n, findTagById ⟨[⟨1, "b"⟩], [], []⟩
              (⟨1, some "c"⟩ : UpdateTagInput).id = some u
             ∧ (⟨1, some "c"⟩ : UpdateTagInput).newName = some n
             ∧ n ≠ u.name
             ∧ nameExistsExcluding ⟨[⟨1, "b"⟩], [], []⟩ n
                (⟨1, some "c"⟩ : UpdateTagInput).id = true)) :=
  ⟨by decide, Or.inl rfl,
    updateTag_name_check_conditions ⟨[⟨1, "a"⟩], [], []⟩ ⟨[⟨1, "b"⟩], [], []⟩
      ⟨1, none⟩ ⟨1, some "c"⟩ ⟨1, "a"⟩ (by decide) (Or.inl rfl)⟩

end Blog
